import Mathlib

/-!
A shallow embedding of the next-hop selection strategy plugin
(`PLNextHopSelectionStrategy`, file `NextHopSelectionStrategy.cc`) of the
trafficserver repository, together with theorems checking the
natural-language specification against it.

The YAML configuration tree handed to `Init` is modelled by `YNode`; the
yaml-cpp accessors used by the source (`operator[]`, `Scalar()`,
`as<bool>()`, `as<int>()`, `as<float>()`, `as<std::string>()`, `Type()`)
are modelled by `YNode.get`, `YNode.Scalar`, `asBool`, `asInt`, `asFloat`,
`asString` and `YNode.ytype`.  Exceptions thrown by the source (bad
conversions, `std::invalid_argument`) are modelled by `Option`: a `none`
result of `Init` corresponds to `Init` returning `false` in the source.
-/

/-- A parsed YAML tree, as handed to `PLNextHopSelectionStrategy::Init`. -/
inductive YNode where
  | scalar (s : String)
  | seq (xs : List YNode)
  | map (kvs : List (String × YNode))

/-- The three yaml-cpp node kinds the source distinguishes via `Type()`. -/
inductive YType where
  | scalar
  | sequence
  | map
  deriving DecidableEq, Repr

/-- `Node::Type()` restricted to the defined node kinds. -/
def YNode.ytype : YNode → YType
  | .scalar _ => .scalar
  | .seq _ => .sequence
  | .map _ => .map

/-- yaml-cpp `operator[]` on a map node: `some` iff the key is present
(the node is "defined", i.e. truthy in `if (n["key"])`). -/
def YNode.get : YNode → String → Option YNode
  | .map kvs, k => kvs.lookup k
  | _, _ => none

/-- yaml-cpp `Node::Scalar()`: the scalar text, or the empty string for a
non-scalar node (it does not throw). -/
def YNode.Scalar : YNode → String
  | .scalar s => s
  | _ => ""

/-- Digit-list accumulator for integer scalars. -/
def digitsToNat : List Char → Nat → Option Nat
  | [], acc => some acc
  | c :: cs, acc => if c.isDigit then digitsToNat cs (acc * 10 + (c.toNat - 48)) else none

/-- Parse a non-empty all-digit character list. -/
def parseNatDigits (cs : List Char) : Option Nat :=
  match cs with
  | [] => none
  | _ => digitsToNat cs 0

/-- yaml-cpp `as<int>()`: parse the scalar as a (possibly signed) integer;
`none` models the conversion throwing. -/
def asInt (n : YNode) : Option Int :=
  match n with
  | .scalar s =>
    match s.data with
    | '-' :: cs => (parseNatDigits cs).map fun m => -(m : Int)
    | cs => (parseNatDigits cs).map fun m => (m : Int)
  | _ => none

/-- Convert a whole list of nodes with `as<int>()`; `none` as soon as one
conversion fails. -/
def asIntList : List YNode → Option (List Int)
  | [] => some []
  | k :: ks =>
    match asInt k with
    | none => none
    | some c =>
      match asIntList ks with
      | none => none
      | some cs => some (c :: cs)

/-- Scalar spellings yaml-cpp `as<bool>()` accepts as `true`. -/
def yamlTrueStrings : List String :=
  ["y", "Y", "yes", "Yes", "YES", "true", "True", "TRUE", "on", "On", "ON"]

/-- Scalar spellings yaml-cpp `as<bool>()` accepts as `false`. -/
def yamlFalseStrings : List String :=
  ["n", "N", "no", "No", "NO", "false", "False", "FALSE", "off", "Off", "OFF"]

/-- yaml-cpp `as<bool>()`; `none` models the conversion throwing. -/
def asBool (n : YNode) : Option Bool :=
  match n with
  | .scalar s =>
    if s ∈ yamlTrueStrings then some true
    else if s ∈ yamlFalseStrings then some false
    else none
  | _ => none

/-- yaml-cpp `as<std::string>()`; `none` models the conversion throwing. -/
def asString (n : YNode) : Option String :=
  match n with
  | .scalar s => some s
  | _ => none

/-- Split a character list at the first dot, if any. -/
def splitAtDot : List Char → (List Char × Option (List Char))
  | [] => ([], none)
  | c :: cs =>
    if c = '.' then ([], some cs)
    else
      let r := splitAtDot cs
      (c :: r.1, r.2)

/-- Parse an unsigned decimal numeral (with optional fraction) as a rational. -/
def parseRatBody (cs : List Char) : Option Rat :=
  match splitAtDot cs with
  | (a, none) => (parseNatDigits a).map fun m => (m : Rat)
  | (a, some b) =>
    match parseNatDigits a, parseNatDigits b with
    | some ia, some fb => some ((ia : Rat) + (fb : Rat) / ((10 : Rat) ^ b.length))
    | _, _ => none

/-- yaml-cpp `as<float>()`, modelled over the rationals (the source's
`float` values in scope are small decimal literals); `none` models the
conversion throwing. -/
def asFloat (n : YNode) : Option Rat :=
  match n with
  | .scalar s =>
    match s.data with
    | '-' :: cs => (parseRatBody cs).map Neg.neg
    | cs => parseRatBody cs
  | _ => none

/-- `PL_NH_SchemeType` from the strategy header. -/
inductive PL_NH_SchemeType where
  | PL_NH_SCHEME_NONE
  | PL_NH_SCHEME_HTTP
  | PL_NH_SCHEME_HTTPS
  deriving DecidableEq, Repr

/-- `PL_NH_RingMode` from the strategy header. -/
inductive PL_NH_RingMode where
  | PL_NH_ALTERNATE_RING
  | PL_NH_EXHAUST_RING
  deriving DecidableEq, Repr

/-- Modelled from the spec: the sentinel `STATUS_CONNECTION_FAILURE` is "a
defined non-HTTP integer distinct from any 3xx-5xx" status code; the header
`ts/parentselectdefs.h` defining it is not among the sources.  We fix the
concrete value 6; every claim below that involves it depends only on the
value being outside the 3xx-5xx range. -/
def STATUS_CONNECTION_FAILURE : Int := 6

/-- Modelled from the spec: the cap on host-group rings, "cardinality
capped at `MAX_GROUP_RINGS` (e.g. 32)"; the header `strategy.h` defining
`PL_NH_MAX_GROUP_RINGS` is not among the sources.  The claims below depend
only on the symbol, not on the concrete value. -/
def PL_NH_MAX_GROUP_RINGS : Nat := 32

/-- `PLNHProtocol`: one per-protocol endpoint of a host.  Modelled from
the spec (§3, "protocols") for the field defaults, since the declaring
header is not among the sources; the decode logic below is from the
source's `YAML::convert<PLNHProtocol>::decode`. -/
structure PLNHProtocol where
  scheme : PL_NH_SchemeType := .PL_NH_SCHEME_NONE
  port : Int := 0
  health_check_url : String := ""
  deriving DecidableEq, Repr

/-- `PLHostRecord`: one upstream host.  Field defaults are modelled from
the spec (§3, "Host Record"; `available` is true until marked down); the
decode logic below is from the source's `YAML::convert<PLHostRecord>::decode`. -/
structure PLHostRecord where
  hostname : String := ""
  protocols : List PLNHProtocol := []
  weight : Rat := 1
  hash_string : String := ""
  group_index : Nat := 0
  host_index : Nat := 0
  available : Bool := true
  deriving DecidableEq, Repr

/-- The strategy object filled in by `Init`.  The attribute list and the
defaults are modelled from the spec (§3, "Strategy"), since the declaring
header `strategy.h` is not among the sources; `resp_codes` is modelled as
the list of codes in insertion order (`add` appends, `sort` sorts,
`contains` is membership), matching the spec's description of the
Response-Code Set.  `health_active`/`health_passive` are the two flags of
`health_checks`. -/
structure PLNextHopSelectionStrategy where
  strategy_name : String := ""
  scheme : PL_NH_SchemeType := .PL_NH_SCHEME_NONE
  go_direct : Bool := true
  parent_is_proxy : Bool := true
  ignore_self_detect : Bool := false
  ring_mode : PL_NH_RingMode := .PL_NH_ALTERNATE_RING
  max_simple_retries : Int := 1
  resp_codes : List Int := []
  health_active : Bool := false
  health_passive : Bool := false
  groups : Nat := 0
  host_groups : List (List PLHostRecord) := []
  num_parents : Nat := 0
  deriving DecidableEq, Repr

/-- Ascending insertion into a sorted list of codes. -/
def insertSorted (c : Int) : List Int → List Int
  | [] => [c]
  | x :: xs => if c ≤ x then c :: x :: xs else x :: insertSorted c xs

/-- `resp_codes.sort()`: sort the response-code list ascending. -/
def sortCodes : List Int → List Int
  | [] => []
  | x :: xs => insertSorted x (sortCodes xs)

/-- The response-code validity test of `Init`: `code > 300 && code < 599`. -/
def failCodeRange (code : Int) : Bool :=
  decide (300 < code) && decide (code < 599)

/-- The `response_codes` loop of `Init`: convert each entry with
`as<int>()` (a failed conversion throws, i.e. `none`), append codes in the
valid range to `resp_codes`, and skip the rest with a note. -/
def respFold : List YNode → PLNextHopSelectionStrategy → Option PLNextHopSelectionStrategy
  | [], s => some s
  | k :: ks, s =>
    match asInt k with
    | none => none
    | some code =>
      respFold ks
        (if failCodeRange code then { s with resp_codes := s.resp_codes ++ [code] } else s)

/-- The `response_codes` branch of `Init`: a non-sequence node is skipped
with an error message (no throw); a sequence is folded and then sorted. -/
def parseRespCodes (rn : YNode) (s : PLNextHopSelectionStrategy) :
    Option PLNextHopSelectionStrategy :=
  match rn with
  | .seq ks =>
    match respFold ks s with
    | none => none
    | some s1 => some { s1 with resp_codes := sortCodes s1.resp_codes }
  | _ => some s

/-- The `health_check` loop of `Init`: each entry is converted with
`as<std::string>()` (throwing on non-scalars) and compared against
"active" and "passive". -/
def applyHealth (health_check : String) (s : PLNextHopSelectionStrategy) :
    PLNextHopSelectionStrategy :=
  let s := if health_check = "active" then { s with health_active := true } else s
  if health_check = "passive" then { s with health_passive := true } else s

/-- The body of the `health_check` loop of `Init`. -/
def healthFold : List YNode → PLNextHopSelectionStrategy → Option PLNextHopSelectionStrategy
  | [], s => some s
  | h :: hs, s =>
    match asString h with
    | none => none
    | some health_check => healthFold hs (applyHealth health_check s)

/-- The `health_check` branch of `Init`: a non-sequence node is skipped
with an error message (no throw). -/
def parseHealthCheck (hn : YNode) (s : PLNextHopSelectionStrategy) :
    Option PLNextHopSelectionStrategy :=
  match hn with
  | .seq hs => healthFold hs s
  | _ => some s

/-- The `scheme` branch of `Init` (pure; `Scalar()` does not throw). -/
def applyScheme (n : YNode) (s : PLNextHopSelectionStrategy) : PLNextHopSelectionStrategy :=
  match n.get "scheme" with
  | some v =>
    if v.Scalar = "http" then { s with scheme := .PL_NH_SCHEME_HTTP }
    else if v.Scalar = "https" then { s with scheme := .PL_NH_SCHEME_HTTPS }
    else { s with scheme := .PL_NH_SCHEME_NONE }
  | none => s

/-- The `ring_mode` branch of `Init` (pure; an unrecognized value falls
back to `PL_NH_ALTERNATE_RING` with a note). -/
def applyRingMode (fn : YNode) (s : PLNextHopSelectionStrategy) : PLNextHopSelectionStrategy :=
  match fn.get "ring_mode" with
  | some rm =>
    if rm.Scalar = "alternate_ring" then { s with ring_mode := .PL_NH_ALTERNATE_RING }
    else if rm.Scalar = "exhaust_ring" then { s with ring_mode := .PL_NH_EXHAUST_RING }
    else { s with ring_mode := .PL_NH_ALTERNATE_RING }
  | none => s

/-- Read an optional bool field: outer `none` models `as<bool>()`
throwing, `some none` an absent key. -/
def readBoolField (n : YNode) (key : String) : Option (Option Bool) :=
  match n.get key with
  | some v =>
    match asBool v with
    | some b => some (some b)
    | none => none
  | none => some none

/-- Read an optional int field: outer `none` models `as<int>()` throwing,
`some none` an absent key. -/
def readIntField (n : YNode) (key : String) : Option (Option Int) :=
  match n.get key with
  | some v =>
    match asInt v with
    | some i => some (some i)
    | none => none
  | none => some none

/-- The scalar-config prefix of `Init`: `scheme`, `go_direct`,
`parent_is_proxy` and `ignore_self_detect`. -/
def initScalars (n : YNode) (s : PLNextHopSelectionStrategy) :
    Option PLNextHopSelectionStrategy :=
  match readBoolField n "go_direct", readBoolField n "parent_is_proxy",
        readBoolField n "ignore_self_detect" with
  | some gd, some pp, some isd =>
    let s := applyScheme n s
    some { s with
            go_direct := gd.getD s.go_direct,
            parent_is_proxy := pp.getD s.parent_is_proxy,
            ignore_self_detect := isd.getD s.ignore_self_detect }
  | _, _, _ => none

/-- The `failover` branch of `Init`: ring mode, `max_simple_retries`, the
unconditional `resp_codes.add(STATUS_CONNECTION_FAILURE)`, the
`response_codes` list and the `health_check` list. -/
def parseFailover (fn : YNode) (s : PLNextHopSelectionStrategy) :
    Option PLNextHopSelectionStrategy :=
  match readIntField fn "max_simple_retries" with
  | none => none
  | some msr =>
    let s := applyRingMode fn s
    let s := { s with max_simple_retries := msr.getD s.max_simple_retries }
    let s := { s with resp_codes := s.resp_codes ++ [STATUS_CONNECTION_FAILURE] }
    match (match fn.get "response_codes" with
           | some rn => parseRespCodes rn s
           | none => some s) with
    | none => none
    | some s2 =>
      match fn.get "health_check" with
      | some hn => parseHealthCheck hn s2
      | none => some s2

/-- `YAML::convert<PLNHProtocol>::decode`. -/
def decodeProtocol (node : YNode) : Option PLNHProtocol :=
  let scheme :=
    match node.get "scheme" with
    | some sc =>
      if sc.Scalar = "http" then PL_NH_SchemeType.PL_NH_SCHEME_HTTP
      else if sc.Scalar = "https" then PL_NH_SchemeType.PL_NH_SCHEME_HTTPS
      else PL_NH_SchemeType.PL_NH_SCHEME_NONE
    | none => PL_NH_SchemeType.PL_NH_SCHEME_NONE
  match (match node.get "port" with
         | some pnode => asInt pnode
         | none => some 0) with
  | none => none
  | some port =>
    let health_check_url :=
      match node.get "health_check_url" with
      | some u => u.Scalar
      | none => ""
    some { scheme := scheme, port := port, health_check_url := health_check_url }

/-- The `protocol` loop of the host decoder. -/
def decodeProtocols : List YNode → Option (List PLNHProtocol)
  | [] => some []
  | x :: xs =>
    match decodeProtocol x with
    | none => none
    | some pr =>
      match decodeProtocols xs with
      | none => none
      | some rest => some (pr :: rest)

/-- `YAML::convert<PLHostRecord>::decode`: honours the YAML merge tag
`<<`; requires `host` and a sequence `protocol`; with a merge tag the
weight is read from the outer node (throwing when absent), otherwise a
missing weight defaults to 1.0. -/
def decodeHost (node : YNode) : Option PLHostRecord :=
  let p := match node.get "<<" with
    | some m => (m, true)
    | none => (node, false)
  let nd := p.1
  let merge_tag_used := p.2
  match nd.get "host" with
  | none => none
  | some hnode =>
    let hostname := hnode.Scalar
    match nd.get "protocol" with
    | some (.seq ps) =>
      match decodeProtocols ps with
      | none => none
      | some protocols =>
        match (if merge_tag_used then
                 match node.get "weight" with
                 | some w => asFloat w
                 | none => none
               else
                 match nd.get "weight" with
                 | some w => asFloat w
                 | none => some 1) with
        | none => none
        | some weight =>
          let hash_string :=
            match nd.get "hash_string" with
            | some h => h.Scalar
            | none => ""
          some { hostname := hostname, protocols := protocols, weight := weight,
                 hash_string := hash_string }
    | _ => none

/-- The inner host loop of `Init`'s group parsing: decode every host,
assign `group_index`/`host_index`, and record (in order) the hostnames for
which `TSHostnameIsSelf` succeeds — those are marked down with reason
`TS_HOST_STATUS_SELF_DETECT` via `TSHostStatusSet`.  The second component
of the result is that list of mark-down calls. -/
def decodeHostsList (isSelf : String → Bool) (grp : Nat) (hst : Nat) :
    List YNode → Option (List PLHostRecord × List String)
  | [] => some ([], [])
  | h :: rest =>
    match decodeHost h with
    | none => none
    | some hr0 =>
      let hr := { hr0 with group_index := grp, host_index := hst }
      match decodeHostsList isSelf grp (hst + 1) rest with
      | none => none
      | some (hs, calls) =>
        some (hr :: hs, (if isSelf hr.hostname then [hr.hostname] else []) ++ calls)

/-- The outer group loop of `Init`: each group must be a sequence
(otherwise `std::invalid_argument` is thrown). -/
def decodeGroups (isSelf : String → Bool) (grp : Nat) :
    List YNode → Option (List (List PLHostRecord) × List String)
  | [] => some ([], [])
  | g :: rest =>
    match g with
    | .seq hl =>
      match decodeHostsList isSelf grp 0 hl with
      | none => none
      | some (hosts, calls) =>
        match decodeGroups isSelf (grp + 1) rest with
        | none => none
        | some (hgs, calls2) => some (hosts :: hgs, calls ++ calls2)
    | _ => none

/-- The `groups` branch of `Init`: a non-sequence `groups` node throws
`std::invalid_argument`; the group count is capped at
`PL_NH_MAX_GROUP_RINGS` and only the first `groups` entries are parsed. -/
def parseGroups (isSelf : String → Bool) (s : PLNextHopSelectionStrategy) (gn : YNode) :
    Option (PLNextHopSelectionStrategy × List String) :=
  match gn with
  | .seq gl =>
    let grp_size := gl.length
    let groups := if grp_size > PL_NH_MAX_GROUP_RINGS then PL_NH_MAX_GROUP_RINGS else grp_size
    match decodeGroups isSelf 0 (gl.take groups) with
    | none => none
    | some (hgs, calls) =>
      some ({ s with
               groups := groups,
               host_groups := s.host_groups ++ hgs,
               num_parents := s.num_parents + (hgs.map List.length).sum }, calls)
  | _ => none

/-- `PLNextHopSelectionStrategy::Init`.  `isSelf` models
`TSHostnameIsSelf` returning `TS_SUCCESS`; the constructor sets
`strategy_name` before `Init` runs.  The result is `none` when `Init`
returns `false` (an exception was caught); on success it carries the
filled-in strategy together with the ordered list of load-time
`SELF_DETECT` mark-down calls. -/
def PLNextHopSelectionStrategy.Init (isSelf : String → Bool) (name : String) (n : YNode) :
    Option (PLNextHopSelectionStrategy × List String) :=
  match initScalars n { strategy_name := name } with
  | none => none
  | some s1 =>
    match (match n.get "failover" with
           | some fn => parseFailover fn s1
           | none => some s1) with
    | none => none
    | some s2 =>
      match n.get "groups" with
      | some gn => parseGroups isSelf s2 gn
      | none => some (s2, [])

/-- `PLNextHopSelectionStrategy::nextHopExists`: scan the groups in order
and return true on the first available host. -/
def PLNextHopSelectionStrategy.nextHopExists (s : PLNextHopSelectionStrategy) : Bool :=
  (List.range s.groups).any fun gg => (s.host_groups.getD gg []).any fun h => h.available

/-- `PLNextHopSelectionStrategy::codeIsFailure`. -/
def PLNextHopSelectionStrategy.codeIsFailure (s : PLNextHopSelectionStrategy)
    (response_code : Int) : Bool :=
  s.resp_codes.contains response_code

/-- `PLNextHopSelectionStrategy::onFailureMarkParentDown`. -/
def PLNextHopSelectionStrategy.onFailureMarkParentDown (response_code : Int) : Bool :=
  decide (response_code ≥ 500) && decide (response_code ≤ 599)

/-- `PLNextHopSelectionStrategy::responseIsRetryable`. -/
def PLNextHopSelectionStrategy.responseIsRetryable (s : PLNextHopSelectionStrategy)
    (current_retry_attempts : Nat) (response_code : Int) : Bool :=
  s.codeIsFailure response_code
    && decide ((current_retry_attempts : Int) < s.max_simple_retries)
    && decide (current_retry_attempts < s.num_parents)

/-! ### Concrete configurations used as witnesses and counterexamples -/

/-- A minimal valid host entry: `host: a` with an empty `protocol` list. -/
def hostNodeA : YNode := .map [("host", .scalar "a"), ("protocol", .seq [])]

/-- A second minimal valid host entry. -/
def hostNodeB : YNode := .map [("host", .scalar "b"), ("protocol", .seq [])]

/-- The record `hostNodeA` decodes to (before index assignment). -/
def hostRecA : PLHostRecord :=
  { hostname := "a", protocols := [], weight := 1, hash_string := "" }

/-- The record `hostNodeB` decodes to (before index assignment). -/
def hostRecB : PLHostRecord :=
  { hostname := "b", protocols := [], weight := 1, hash_string := "" }

/-- An empty strategy configuration (no `failover`, no `groups`). -/
def cfgEmpty : YNode := .map []

/-- A configuration whose only entry is an empty `failover` node. -/
def cfgFailoverOnly : YNode := .map [("failover", .map [])]

/-- A configuration listing the response codes 300, 404 and 599. -/
def cfgEdgeCodes : YNode :=
  .map [("failover",
         .map [("response_codes", .seq [.scalar "300", .scalar "404", .scalar "599"])])]

/-- A configuration with `ignore_self_detect: true` and one host group. -/
def cfgSelfIgnore : YNode :=
  .map [("ignore_self_detect", .scalar "true"), ("groups", .seq [.seq [hostNodeA]])]

/-- The same group layout without the `ignore_self_detect` entry. -/
def cfgSelfDefault : YNode := .map [("groups", .seq [.seq [hostNodeA]])]

/-- A configuration whose `groups` node is a scalar, not a sequence. -/
def cfgGroupsScalar : YNode := .map [("groups", .scalar "x")]

/-- A host entry written with the YAML merge tag and no `weight` field. -/
def mergeHostNoWeight : YNode :=
  .map [("<<", .map [("host", .scalar "a"), ("protocol", .seq [])])]

/-- A configuration with two host groups. -/
def cfgTwoGroups : YNode :=
  .map [("groups", .seq [.seq [hostNodeA], .seq [hostNodeB]])]

/-- A configuration with an unrecognized `ring_mode` value. -/
def cfgBogusRing : YNode :=
  .map [("failover", .map [("ring_mode", .scalar "bogus")])]

/-- A configuration listing the response codes 404 and 503. -/
def cfgTwoCodes : YNode :=
  .map [("failover", .map [("response_codes", .seq [.scalar "404", .scalar "503"])])]

/-- The self-resolution function that recognizes exactly the host `a`. -/
def isSelfA : String → Bool := fun h => h == "a"

/-- The strategy `Init` builds from `cfgFailoverOnly` (and from
`cfgBogusRing`): only the sentinel in `resp_codes`, everything else at its
default. -/
def stratFailoverOnly : PLNextHopSelectionStrategy :=
  { strategy_name := "s", resp_codes := [STATUS_CONNECTION_FAILURE] }

/-- The strategy `Init` builds from `cfgSelfIgnore`. -/
def stratSelfIgnore : PLNextHopSelectionStrategy :=
  { strategy_name := "s", ignore_self_detect := true, groups := 1,
    host_groups := [[hostRecA]], num_parents := 1 }

/-- The strategy `Init` builds from `cfgSelfDefault`. -/
def stratSelfDefault : PLNextHopSelectionStrategy :=
  { strategy_name := "s", groups := 1, host_groups := [[hostRecA]], num_parents := 1 }

/-- The strategy `Init` builds from `cfgTwoGroups`. -/
def stratTwoGroups : PLNextHopSelectionStrategy :=
  { strategy_name := "s", groups := 2,
    host_groups := [[hostRecA], [{ hostRecB with group_index := 1 }]], num_parents := 2 }

/-- The strategy `Init` builds from `cfgTwoCodes`. -/
def stratTwoCodes : PLNextHopSelectionStrategy :=
  { strategy_name := "s", resp_codes := [STATUS_CONNECTION_FAILURE, 404, 503] }

/-! ### Claims C3, C4 and C9 (pure predicates) -/

/-- Claim C3: `onFailureMarkParentDown c` returns true exactly when
`500 ≤ c ≤ 599`. -/
theorem C3_onFailureMarkParentDown (c : Int) :
    PLNextHopSelectionStrategy.onFailureMarkParentDown c = true ↔ 500 ≤ c ∧ c ≤ 599 := by
  simp [PLNextHopSelectionStrategy.onFailureMarkParentDown, ge_iff_le]

/-- Claim C4, counterexample: `onFailureMarkParentDown` applied to the
connection-failure sentinel does not return true. -/
theorem C4_counterexample :
    ¬ (PLNextHopSelectionStrategy.onFailureMarkParentDown STATUS_CONNECTION_FAILURE = true) := by
  decide

/-- Claim C4, amended: since the sentinel is a non-HTTP integer outside
the 3xx-5xx range, `onFailureMarkParentDown` applied to it returns false —
a bare connection failure does not mark the parent down through this
predicate. -/
theorem C4_sentinel_not_marked_down :
    PLNextHopSelectionStrategy.onFailureMarkParentDown STATUS_CONNECTION_FAILURE = false ∧
      (STATUS_CONNECTION_FAILURE < 300 ∨ 599 < STATUS_CONNECTION_FAILURE) := by
  decide

/-- Claim C9: `nextHopExists` is true iff some host in some group with
index below `groups` has its availability flag set. -/
theorem C9_nextHopExists (s : PLNextHopSelectionStrategy) :
    s.nextHopExists = true ↔
      ∃ g, g < s.groups ∧ ∃ hr ∈ s.host_groups.getD g [], hr.available = true := by
  simp [PLNextHopSelectionStrategy.nextHopExists, List.any_eq_true, List.mem_range]

/-! ### Closed counterexamples computed on concrete configurations -/

/-- Claim C1, counterexample: on a configuration without a `failover`
node, `Init` succeeds but `resp_codes` stays empty, so the sentinel is not
a member. -/
theorem C1_counterexample :
    PLNextHopSelectionStrategy.Init (fun _ => false) "s" cfgEmpty =
        some ({ strategy_name := "s" }, []) ∧
      STATUS_CONNECTION_FAILURE ∉ ({ strategy_name := "s" } :
        PLNextHopSelectionStrategy).resp_codes := by
  decide

/-- Claim C2, counterexample: with `ignore_self_detect: true` and a host
resolving to the local process, `Init` still performs the `SELF_DETECT`
mark-down call for that host at load time. -/
theorem C2_counterexample :
    PLNextHopSelectionStrategy.Init isSelfA "s" cfgSelfIgnore =
        some ({ strategy_name := "s", ignore_self_detect := true, groups := 1,
                host_groups := [[hostRecA]], num_parents := 1 }, ["a"]) ∧
      ({ strategy_name := "s", ignore_self_detect := true, groups := 1,
         host_groups := [[hostRecA]], num_parents := 1 } :
        PLNextHopSelectionStrategy).ignore_self_detect = true := by
  decide

/-- Claim C5, counterexample: the listed codes 300 and 599 lie in
`[300, 599]` but are dropped (the code keeps only `300 < c < 599`), while
`Init` still succeeds with `resp_codes = [6, 404]`. -/
theorem C5_counterexample :
    (PLNextHopSelectionStrategy.Init (fun _ => false) "s" cfgEdgeCodes).map
        (fun p => p.1.resp_codes) = some [STATUS_CONNECTION_FAILURE, 404] ∧
      (300 : Int) ∉ [STATUS_CONNECTION_FAILURE, (404 : Int)] ∧
      (599 : Int) ∉ [STATUS_CONNECTION_FAILURE, (404 : Int)] := by
  decide

/-- Claim C7, counterexample: a host entry written with the YAML merge tag
`<<` and no `weight` field does not decode to a record of weight 1.0 — the
decode fails outright (`as<float>()` on the undefined weight node throws). -/
theorem C7_counterexample : decodeHost mergeHostNoWeight = none := by
  decide

/-! ### Helper lemmas about the response-code container -/

/-- Membership is preserved by sorted insertion. -/
theorem insertSorted_mem (c a : Int) (l : List Int) :
    c ∈ insertSorted a l ↔ c = a ∨ c ∈ l := by
  induction l with
  | nil => simp [insertSorted]
  | cons x xs ih =>
    simp only [insertSorted]
    split
    · simp
    · simp [ih]
      tauto

/-- Sorting does not change membership. -/
theorem sortCodes_mem (c : Int) (l : List Int) : c ∈ sortCodes l ↔ c ∈ l := by
  induction l with
  | nil => simp [sortCodes]
  | cons x xs ih => simp [sortCodes, insertSorted_mem, ih]

/-- The valid-range test unfolded to a proposition. -/
theorem failCodeRange_iff (c : Int) : failCodeRange c = true ↔ 300 < c ∧ c < 599 := by
  simp [failCodeRange]

/-- Characterization of the `response_codes` loop: when it succeeds, every
entry converted with `as<int>()` succeeded, the codes in the valid range
were appended in order, and no other strategy field changed. -/
theorem respFold_spec (ks : List YNode) (s s' : PLNextHopSelectionStrategy)
    (h : respFold ks s = some s') :
    ∃ cs, asIntList ks = some cs ∧
      s' = { s with resp_codes := s.resp_codes ++ cs.filter failCodeRange } := by
  induction ks generalizing s with
  | nil =>
    refine ⟨[], rfl, ?_⟩
    simp only [respFold] at h
    cases h
    simp
  | cons k ks ih =>
    simp only [respFold] at h
    cases hk : asInt k with
    | none => rw [hk] at h; exact absurd h (by simp)
    | some code =>
      rw [hk] at h
      obtain ⟨cs, hcs, hs'⟩ := ih _ h
      refine ⟨code :: cs, ?_, ?_⟩
      · simp [asIntList, hk, hcs]
      · rw [hs']
        by_cases hc : failCodeRange code = true
        · simp [hc, List.filter_cons]
        · simp only [Bool.not_eq_true] at hc
          simp [hc, List.filter_cons]

/-! ### Field-preservation lemmas for the steps of `Init` -/

/-- The `scheme` branch touches only the `scheme` field. -/
theorem applyScheme_fields (n : YNode) (s : PLNextHopSelectionStrategy) :
    (applyScheme n s).resp_codes = s.resp_codes ∧
      (applyScheme n s).host_groups = s.host_groups ∧
      (applyScheme n s).ring_mode = s.ring_mode := by
  unfold applyScheme
  split
  · split
    · exact ⟨rfl, rfl, rfl⟩
    · split
      · exact ⟨rfl, rfl, rfl⟩
      · exact ⟨rfl, rfl, rfl⟩
  · exact ⟨rfl, rfl, rfl⟩

/-- The `ring_mode` branch touches only the `ring_mode` field. -/
theorem applyRingMode_fields (fn : YNode) (s : PLNextHopSelectionStrategy) :
    (applyRingMode fn s).resp_codes = s.resp_codes ∧
      (applyRingMode fn s).host_groups = s.host_groups := by
  unfold applyRingMode
  split
  · split
    · exact ⟨rfl, rfl⟩
    · split
      · exact ⟨rfl, rfl⟩
      · exact ⟨rfl, rfl⟩
  · exact ⟨rfl, rfl⟩

/-- An unrecognized `ring_mode` value falls back to the alternate-ring
default. -/
theorem applyRingMode_invalid (fn : YNode) (s : PLNextHopSelectionStrategy) (rm : YNode)
    (hrm : fn.get "ring_mode" = some rm)
    (h1 : rm.Scalar ≠ "alternate_ring") (h2 : rm.Scalar ≠ "exhaust_ring") :
    (applyRingMode fn s).ring_mode = PL_NH_RingMode.PL_NH_ALTERNATE_RING := by
  unfold applyRingMode
  rw [hrm]
  simp [h1, h2]

/-- The scalar-config prefix never touches `resp_codes`, `host_groups` or
`ring_mode`. -/
theorem initScalars_fields {n : YNode} {s s' : PLNextHopSelectionStrategy}
    (h : initScalars n s = some s') :
    s'.resp_codes = s.resp_codes ∧ s'.host_groups = s.host_groups ∧
      s'.ring_mode = s.ring_mode := by
  unfold initScalars at h
  split at h
  · dsimp only at h
    cases h
    exact applyScheme_fields n s
  · exact absurd h (by simp)

/-- The `health_check` flags update touches only the two flags. -/
theorem applyHealth_fields (hc : String) (s : PLNextHopSelectionStrategy) :
    (applyHealth hc s).resp_codes = s.resp_codes ∧
      (applyHealth hc s).host_groups = s.host_groups ∧
      (applyHealth hc s).ring_mode = s.ring_mode := by
  simp only [applyHealth]
  split <;> split <;> exact ⟨rfl, rfl, rfl⟩

/-- The `health_check` loop never touches `resp_codes`, `host_groups` or
`ring_mode`. -/
theorem healthFold_fields (hs : List YNode) (s s' : PLNextHopSelectionStrategy)
    (h : healthFold hs s = some s') :
    s'.resp_codes = s.resp_codes ∧ s'.host_groups = s.host_groups ∧
      s'.ring_mode = s.ring_mode := by
  induction hs generalizing s with
  | nil =>
    simp only [healthFold] at h
    cases h
    exact ⟨rfl, rfl, rfl⟩
  | cons x xs ih =>
    simp only [healthFold] at h
    cases hx : asString x with
    | none => rw [hx] at h; exact absurd h (by simp)
    | some hc =>
      rw [hx] at h
      obtain ⟨e1, e2, e3⟩ := ih (applyHealth hc s) h
      obtain ⟨f1, f2, f3⟩ := applyHealth_fields hc s
      exact ⟨e1.trans f1, e2.trans f2, e3.trans f3⟩

/-- The `health_check` branch never touches `resp_codes`, `host_groups` or
`ring_mode`. -/
theorem parseHealthCheck_fields {hn : YNode} {s s' : PLNextHopSelectionStrategy}
    (h : parseHealthCheck hn s = some s') :
    s'.resp_codes = s.resp_codes ∧ s'.host_groups = s.host_groups ∧
      s'.ring_mode = s.ring_mode := by
  unfold parseHealthCheck at h
  split at h
  · exact healthFold_fields _ _ _ h
  · cases h; exact ⟨rfl, rfl, rfl⟩

/-- The `response_codes` branch only grows `resp_codes` (up to sorting)
and touches nothing else. -/
theorem parseRespCodes_fields {rn : YNode} {s s' : PLNextHopSelectionStrategy}
    (h : parseRespCodes rn s = some s') :
    (∀ c ∈ s.resp_codes, c ∈ s'.resp_codes) ∧ s'.host_groups = s.host_groups ∧
      s'.ring_mode = s.ring_mode := by
  unfold parseRespCodes at h
  split at h
  · next ks =>
    cases hrf : respFold ks s with
    | none => rw [hrf] at h; exact absurd h (by simp)
    | some s1 =>
      rw [hrf] at h
      cases h
      obtain ⟨cs, hcs, hs1⟩ := respFold_spec _ _ _ hrf
      subst hs1
      refine ⟨?_, rfl, rfl⟩
      intro c hc
      simp only [sortCodes_mem, List.mem_append]
      exact Or.inl hc
  · cases h
    exact ⟨fun c hc => hc, rfl, rfl⟩

/-- Exact description of `resp_codes` after a well-formed
`response_codes` sequence is processed. -/
theorem parseRespCodes_seq_exact {ks : List YNode} {cs : List Int}
    {s s' : PLNextHopSelectionStrategy}
    (h : parseRespCodes (.seq ks) s = some s') (hcs : asIntList ks = some cs) :
    s'.resp_codes = sortCodes (s.resp_codes ++ cs.filter failCodeRange) := by
  simp only [parseRespCodes] at h
  cases hrf : respFold ks s with
  | none => rw [hrf] at h; exact absurd h (by simp)
  | some s1 =>
    rw [hrf] at h
    cases h
    obtain ⟨cs', hcs', hs1⟩ := respFold_spec _ _ _ hrf
    rw [hcs] at hcs'
    cases hcs'
    subst hs1
    rfl

/-- After a successful `failover` parse, the sentinel is a member of
`resp_codes` and `host_groups` is untouched. -/
theorem parseFailover_spec {fn : YNode} {s s' : PLNextHopSelectionStrategy}
    (h : parseFailover fn s = some s') :
    STATUS_CONNECTION_FAILURE ∈ s'.resp_codes ∧ s'.host_groups = s.host_groups := by
  simp only [parseFailover] at h
  split at h
  · exact absurd h (by simp)
  · split at h
    · exact absurd h (by simp)
    · next s2 hs2 =>
      have hrm := applyRingMode_fields fn s
      have hmem : STATUS_CONNECTION_FAILURE ∈
          ((applyRingMode fn s).resp_codes ++ [STATUS_CONNECTION_FAILURE]) := by
        simp
      have hhg2 : STATUS_CONNECTION_FAILURE ∈ s2.resp_codes ∧
          s2.host_groups = s.host_groups := by
        cases hrc : fn.get "response_codes" with
        | some rn =>
          rw [hrc] at hs2
          obtain ⟨hmono, hhg, _⟩ := parseRespCodes_fields hs2
          exact ⟨hmono _ hmem, hhg.trans hrm.2⟩
        | none =>
          rw [hrc] at hs2
          cases hs2
          exact ⟨hmem, hrm.2⟩
      cases hhc : fn.get "health_check" with
      | some hn =>
        rw [hhc] at h
        obtain ⟨e1, e2, _⟩ := parseHealthCheck_fields h
        exact ⟨e1 ▸ hhg2.1, e2.trans hhg2.2⟩
      | none =>
        rw [hhc] at h
        cases h
        exact hhg2

/-- After a successful `failover` parse with an unrecognized `ring_mode`
value, `ring_mode` is the alternate-ring default. -/
theorem parseFailover_ring {fn : YNode} {s s' : PLNextHopSelectionStrategy} {rm : YNode}
    (h : parseFailover fn s = some s')
    (hrm : fn.get "ring_mode" = some rm)
    (h1 : rm.Scalar ≠ "alternate_ring") (h2 : rm.Scalar ≠ "exhaust_ring") :
    s'.ring_mode = PL_NH_RingMode.PL_NH_ALTERNATE_RING := by
  simp only [parseFailover] at h
  split at h
  · exact absurd h (by simp)
  · split at h
    · exact absurd h (by simp)
    · next s2 hs2 =>
      have hbase : (applyRingMode fn s).ring_mode = PL_NH_RingMode.PL_NH_ALTERNATE_RING :=
        applyRingMode_invalid fn s rm hrm h1 h2
      have hr2 : s2.ring_mode = PL_NH_RingMode.PL_NH_ALTERNATE_RING := by
        cases hrc : fn.get "response_codes" with
        | some rn =>
          rw [hrc] at hs2
          obtain ⟨_, _, hrg⟩ := parseRespCodes_fields hs2
          exact hrg.trans hbase
        | none =>
          rw [hrc] at hs2
          cases hs2
          exact hbase
      cases hhc : fn.get "health_check" with
      | some hn =>
        rw [hhc] at h
        obtain ⟨_, _, hrg⟩ := parseHealthCheck_fields h
        exact hrg.trans hr2
      | none =>
        rw [hhc] at h
        cases h
        exact hr2

/-- Exact description of `resp_codes` after a successful `failover` parse
with a well-formed `response_codes` sequence. -/
theorem parseFailover_resp_exact {fn : YNode} {s s' : PLNextHopSelectionStrategy}
    {ks : List YNode} {cs : List Int}
    (h : parseFailover fn s = some s')
    (hrc : fn.get "response_codes" = some (.seq ks)) (hcs : asIntList ks = some cs) :
    s'.resp_codes =
      sortCodes ((s.resp_codes ++ [STATUS_CONNECTION_FAILURE]) ++ cs.filter failCodeRange) := by
  simp only [parseFailover] at h
  split at h
  · exact absurd h (by simp)
  · split at h
    · exact absurd h (by simp)
    · next s2 hs2 =>
      rw [hrc] at hs2
      have hexact := parseRespCodes_seq_exact hs2 hcs
      have hrm := applyRingMode_fields fn s
      have hs2resp : s2.resp_codes =
          sortCodes ((s.resp_codes ++ [STATUS_CONNECTION_FAILURE]) ++ cs.filter failCodeRange) := by
        rw [hexact]
        have : ((applyRingMode fn s).resp_codes ++ [STATUS_CONNECTION_FAILURE]) =
            s.resp_codes ++ [STATUS_CONNECTION_FAILURE] := by rw [hrm.1]
        exact congrArg sortCodes (by rw [this])
      cases hhc : fn.get "health_check" with
      | some hn =>
        rw [hhc] at h
        exact (parseHealthCheck_fields h).1.trans hs2resp
      | none =>
        rw [hhc] at h
        cases h
        exact hs2resp

/-! ### Lemmas about the group-parsing loop -/

/-- Inversion of the `groups` branch: it succeeds only on a sequence, caps
the group count, decodes the kept prefix, and updates exactly the
`groups`, `host_groups` and `num_parents` fields. -/
theorem parseGroups_inv {isSelf : String → Bool} {s s' : PLNextHopSelectionStrategy}
    {gn : YNode} {calls : List String}
    (h : parseGroups isSelf s gn = some (s', calls)) :
    ∃ gl hgs,
      gn = .seq gl ∧
      decodeGroups isSelf 0
          (gl.take (if gl.length > PL_NH_MAX_GROUP_RINGS then PL_NH_MAX_GROUP_RINGS
                    else gl.length)) = some (hgs, calls) ∧
      s' = { s with
              groups := if gl.length > PL_NH_MAX_GROUP_RINGS then PL_NH_MAX_GROUP_RINGS
                        else gl.length,
              host_groups := s.host_groups ++ hgs,
              num_parents := s.num_parents + (hgs.map List.length).sum } := by
  simp only [parseGroups] at h
  split at h
  · next gl =>
    cases hd : decodeGroups isSelf 0
        (gl.take (if gl.length > PL_NH_MAX_GROUP_RINGS then PL_NH_MAX_GROUP_RINGS
                  else gl.length)) with
    | none => rw [hd] at h; exact absurd h (by simp)
    | some pr =>
      obtain ⟨hgs, cs⟩ := pr
      rw [hd] at h
      cases h
      exact ⟨gl, hgs, rfl, hd, rfl⟩
  · exact absurd h (by simp)

/-- The `groups` branch never touches `resp_codes` or `ring_mode`. -/
theorem parseGroups_fields {isSelf : String → Bool} {s s' : PLNextHopSelectionStrategy}
    {gn : YNode} {calls : List String}
    (h : parseGroups isSelf s gn = some (s', calls)) :
    s'.resp_codes = s.resp_codes ∧ s'.ring_mode = s.ring_mode := by
  obtain ⟨gl, hgs, hgl, hd, hs'⟩ := parseGroups_inv h
  rw [hs']
  exact ⟨rfl, rfl⟩

/-- The mark-down call list produced by the `groups` branch does not
depend on the strategy state threaded through it. -/
theorem parseGroups_calls {isSelf : String → Bool} {s t s' t' : PLNextHopSelectionStrategy}
    {gn : YNode} {calls calls' : List String}
    (h : parseGroups isSelf s gn = some (s', calls))
    (h' : parseGroups isSelf t gn = some (t', calls')) : calls = calls' := by
  obtain ⟨gl, hgs, hgl, hd, hs'⟩ := parseGroups_inv h
  obtain ⟨gl2, hgs2, hgl2, hd2, ht'⟩ := parseGroups_inv h'
  subst hgl
  cases hgl2
  rw [hd] at hd2
  cases hd2
  rfl

/-- The group decoder yields one host list per kept group node. -/
theorem decodeGroups_len {isSelf : String → Bool} (gl : List YNode) :
    ∀ (grp : Nat) (hgs : List (List PLHostRecord)) (calls : List String),
      decodeGroups isSelf grp gl = some (hgs, calls) → hgs.length = gl.length := by
  induction gl with
  | nil =>
    intro grp hgs calls h
    simp only [decodeGroups] at h
    cases h
    rfl
  | cons g rest ih =>
    intro grp hgs calls h
    simp only [decodeGroups] at h
    split at h
    · next hl =>
      cases h1 : decodeHostsList isSelf grp 0 hl with
      | none => rw [h1] at h; exact absurd h (by simp)
      | some pr1 =>
        obtain ⟨hosts, cs1⟩ := pr1
        rw [h1] at h
        cases h2 : decodeGroups isSelf (grp + 1) rest with
        | none => rw [h2] at h; exact absurd h (by simp)
        | some pr2 =>
          obtain ⟨hgs2, cs2⟩ := pr2
          rw [h2] at h
          cases h
          simp [ih _ _ _ h2]
    · exact absurd h (by simp)

/-- Every decoded host whose hostname resolves to the local process
appears in the mark-down call list of its host group. -/
theorem decodeHostsList_mem {isSelf : String → Bool} {grp : Nat} (hl : List YNode) :
    ∀ (hst : Nat) (hs : List PLHostRecord) (calls : List String),
      decodeHostsList isSelf grp hst hl = some (hs, calls) →
      ∀ hr ∈ hs, isSelf hr.hostname = true → hr.hostname ∈ calls := by
  induction hl with
  | nil =>
    intro hst hs calls h hr hmem
    simp only [decodeHostsList] at h
    cases h
    simp at hmem
  | cons x rest ih =>
    intro hst hs calls h hr hmem hself
    simp only [decodeHostsList] at h
    cases hd : decodeHost x with
    | none => rw [hd] at h; exact absurd h (by simp)
    | some hr0 =>
      rw [hd] at h
      cases h2 : decodeHostsList isSelf grp (hst + 1) rest with
      | none => rw [h2] at h; exact absurd h (by simp)
      | some pr =>
        obtain ⟨hs2, calls2⟩ := pr
        rw [h2] at h
        cases h
        rcases List.mem_cons.mp hmem with heq | htail
        · subst heq
          rw [hself]
          simp
        · exact List.mem_append_right _ (ih _ _ _ h2 hr htail hself)

/-- Every decoded host (in any group) whose hostname resolves to the
local process appears in the overall mark-down call list. -/
theorem decodeGroups_mem {isSelf : String → Bool} (gl : List YNode) :
    ∀ (grp : Nat) (hgs : List (List PLHostRecord)) (calls : List String),
      decodeGroups isSelf grp gl = some (hgs, calls) →
      ∀ g ∈ hgs, ∀ hr ∈ g, isSelf hr.hostname = true → hr.hostname ∈ calls := by
  induction gl with
  | nil =>
    intro grp hgs calls h g hg
    simp only [decodeGroups] at h
    cases h
    simp at hg
  | cons x rest ih =>
    intro grp hgs calls h g hg hr hmem hself
    simp only [decodeGroups] at h
    split at h
    · next hl =>
      cases h1 : decodeHostsList isSelf grp 0 hl with
      | none => rw [h1] at h; exact absurd h (by simp)
      | some pr1 =>
        obtain ⟨hosts, cs1⟩ := pr1
        rw [h1] at h
        cases h2 : decodeGroups isSelf (grp + 1) rest with
        | none => rw [h2] at h; exact absurd h (by simp)
        | some pr2 =>
          obtain ⟨hgs2, cs2⟩ := pr2
          rw [h2] at h
          cases h
          rcases List.mem_cons.mp hg with heq | htail
          · subst heq
            exact List.mem_append_left _ (decodeHostsList_mem hl _ _ _ h1 hr hmem hself)
          · exact List.mem_append_right _ (ih _ _ _ h2 g htail hr hmem hself)
    · exact absurd h (by simp)

/-- Decomposition of a successful `Init` run into its three phases. -/
theorem Init_parts {isSelf : String → Bool} {name : String} {n : YNode}
    {strat : PLNextHopSelectionStrategy} {calls : List String}
    (h : PLNextHopSelectionStrategy.Init isSelf name n = some (strat, calls)) :
    ∃ s1 s2, initScalars n { strategy_name := name } = some s1 ∧
      (match n.get "failover" with
       | some fn => parseFailover fn s1
       | none => some s1) = some s2 ∧
      (match n.get "groups" with
       | some gn => parseGroups isSelf s2 gn
       | none => some (s2, [])) = some (strat, calls) := by
  simp only [PLNextHopSelectionStrategy.Init] at h
  split at h
  · exact absurd h (by simp)
  · next s1 hs1 =>
    split at h
    · exact absurd h (by simp)
    · next s2 hs2 => exact ⟨s1, s2, hs1, hs2, h⟩

/-- The `groups` phase never changes `resp_codes` or `ring_mode`,
whether or not a `groups` node is present. -/
theorem groupsStep_fields {isSelf : String → Bool} {n : YNode}
    {s2 strat : PLNextHopSelectionStrategy} {calls : List String}
    (h3 : (match n.get "groups" with
           | some gn => parseGroups isSelf s2 gn
           | none => some (s2, [])) = some (strat, calls)) :
    strat.resp_codes = s2.resp_codes ∧ strat.ring_mode = s2.ring_mode := by
  cases hg : n.get "groups" with
  | some gn => rw [hg] at h3; exact parseGroups_fields h3
  | none => rw [hg] at h3; cases h3; exact ⟨rfl, rfl⟩

/-- Before the `groups` phase runs, `host_groups` is still empty. -/
theorem Init_pre_hostGroups {name : String} {n : YNode}
    {s1 s2 : PLNextHopSelectionStrategy}
    (h1 : initScalars n { strategy_name := name } = some s1)
    (h2 : (match n.get "failover" with
           | some fn => parseFailover fn s1
           | none => some s1) = some s2) :
    s2.host_groups = [] := by
  have e1 : s1.host_groups = [] := (initScalars_fields h1).2.1
  cases hf : n.get "failover" with
  | some fn => rw [hf] at h2; exact (parseFailover_spec h2).2.trans e1
  | none => rw [hf] at h2; cases h2; exact e1

/-! ### Claims about `Init` -/

/-- Claim C1, amended: the sentinel `STATUS_CONNECTION_FAILURE` is a
member of `resp_codes` for every successfully loaded configuration that
has a `failover` node; on a configuration without a `failover` node the
sentinel is not added and `resp_codes` stays empty. -/
theorem C1_sentinel_membership (isSelf : String → Bool) (name : String) (n : YNode)
    (strat : PLNextHopSelectionStrategy) (calls : List String)
    (hInit : PLNextHopSelectionStrategy.Init isSelf name n = some (strat, calls)) :
    ((n.get "failover").isSome → STATUS_CONNECTION_FAILURE ∈ strat.resp_codes) ∧
      (n.get "failover" = none → strat.resp_codes = []) := by
  obtain ⟨s1, s2, h1, h2, h3⟩ := Init_parts hInit
  have hresp := (groupsStep_fields h3).1
  have e1 : s1.resp_codes = [] := (initScalars_fields h1).1
  constructor
  · intro hsome
    cases hf : n.get "failover" with
    | none => rw [hf] at hsome; simp at hsome
    | some fn =>
      rw [hf] at h2
      rw [hresp]
      exact (parseFailover_spec h2).1
  · intro hnone
    rw [hnone] at h2
    cases h2
    rw [hresp, e1]

/-- Claim C1, witness at a concrete configuration with a `failover` node. -/
theorem C1_witness :
    ((cfgFailoverOnly.get "failover").isSome →
        STATUS_CONNECTION_FAILURE ∈ stratFailoverOnly.resp_codes) ∧
      (cfgFailoverOnly.get "failover" = none → stratFailoverOnly.resp_codes = []) :=
  C1_sentinel_membership (fun _ => false) "s" cfgFailoverOnly stratFailoverOnly [] (by decide)

/-- Claim C2, amended: the load-time `SELF_DETECT` mark-down calls are
made regardless of `ignore_self_detect` — they are a function of the
`groups` node and the self-resolution test alone, and every loaded host
whose hostname resolves to the local process is in the call list. -/
theorem C2_self_detect_flag_independent (isSelf : String → Bool)
    (name name2 : String) (n n2 : YNode)
    (strat strat2 : PLNextHopSelectionStrategy) (calls calls2 : List String)
    (h1 : PLNextHopSelectionStrategy.Init isSelf name n = some (strat, calls))
    (h2 : PLNextHopSelectionStrategy.Init isSelf name2 n2 = some (strat2, calls2))
    (hg : n.get "groups" = n2.get "groups") :
    calls = calls2 ∧
      ∀ g ∈ strat.host_groups, ∀ hr ∈ g, isSelf hr.hostname = true → hr.hostname ∈ calls := by
  obtain ⟨s1, s2, ha1, ha2, ha3⟩ := Init_parts h1
  obtain ⟨t1, t2, hb1, hb2, hb3⟩ := Init_parts h2
  have hs2hg : s2.host_groups = [] := Init_pre_hostGroups ha1 ha2
  cases hgn : n.get "groups" with
  | none =>
    rw [hgn] at ha3 hg
    rw [← hg] at hb3
    cases ha3
    cases hb3
    refine ⟨rfl, ?_⟩
    intro g hgmem
    rw [hs2hg] at hgmem
    simp at hgmem
  | some gn =>
    rw [hgn] at ha3 hg
    rw [← hg] at hb3
    obtain ⟨gl, hgs, hgl, hd, hstrat⟩ := parseGroups_inv ha3
    have hcalls := parseGroups_calls ha3 hb3
    refine ⟨hcalls, ?_⟩
    intro g hgmem hr hrmem hself
    rw [hstrat] at hgmem
    dsimp only at hgmem
    rw [hs2hg] at hgmem
    simp only [List.nil_append] at hgmem
    exact decodeGroups_mem _ _ _ _ hd g hgmem hr hrmem hself

/-- Claim C2, witness: two concrete configurations differing exactly in
`ignore_self_detect` produce the same mark-down call list, and the
self-resolving host `a` is in it. -/
theorem C2_witness :
    (["a"] : List String) = ["a"] ∧
      ∀ g ∈ stratSelfIgnore.host_groups, ∀ hr ∈ g,
        isSelfA hr.hostname = true → hr.hostname ∈ ["a"] :=
  C2_self_detect_flag_independent isSelfA "s" "s" cfgSelfIgnore cfgSelfDefault
    stratSelfIgnore stratSelfDefault ["a"] ["a"] (by decide) (by decide) rfl

/-- Claim C5, amended: a configured `response_codes` list contributes
exactly its listed codes `c` with `300 < c < 599` (strict bounds: 300 and
599 themselves are dropped with a warning), on top of the sentinel, and
the strategy still loads. -/
theorem C5_response_codes (isSelf : String → Bool) (name : String) (n fn : YNode)
    (ks : List YNode) (cs : List Int)
    (strat : PLNextHopSelectionStrategy) (calls : List String)
    (hf : n.get "failover" = some fn)
    (hr : fn.get "response_codes" = some (.seq ks))
    (hcs : asIntList ks = some cs)
    (hInit : PLNextHopSelectionStrategy.Init isSelf name n = some (strat, calls)) :
    ∀ c : Int, c ∈ strat.resp_codes ↔
      c = STATUS_CONNECTION_FAILURE ∨ (c ∈ cs ∧ 300 < c ∧ c < 599) := by
  obtain ⟨s1, s2, h1, h2, h3⟩ := Init_parts hInit
  rw [hf] at h2
  have hexact := parseFailover_resp_exact h2 hr hcs
  have e1 : s1.resp_codes = [] := (initScalars_fields h1).1
  have hresp := (groupsStep_fields h3).1
  intro c
  rw [hresp, hexact, e1]
  simp only [List.nil_append, sortCodes_mem, List.mem_append, List.mem_singleton,
    List.mem_filter, failCodeRange_iff]

/-- Claim C5, witness at a concrete configuration listing 404 and 503,
evaluated at the code 404. -/
theorem C5_witness :
    (404 : Int) ∈ stratTwoCodes.resp_codes ↔
      (404 : Int) = STATUS_CONNECTION_FAILURE ∨
        ((404 : Int) ∈ [(404 : Int), 503] ∧ (300 : Int) < 404 ∧ (404 : Int) < 599) :=
  C5_response_codes (fun _ => false) "s" cfgTwoCodes
    (.map [("response_codes", .seq [.scalar "404", .scalar "503"])])
    [.scalar "404", .scalar "503"] [404, 503] stratTwoCodes [] rfl rfl rfl (by decide) 404

/-- Claim C6: a present but non-sequence `groups` node makes `Init`
return false (the `std::invalid_argument` is caught and the strategy is
rejected as a whole). -/
theorem C6_groups_not_sequence (isSelf : String → Bool) (name : String) (n g : YNode)
    (hg : n.get "groups" = some g) (ht : g.ytype ≠ YType.sequence) :
    PLNextHopSelectionStrategy.Init isSelf name n = none := by
  unfold PLNextHopSelectionStrategy.Init
  cases h1 : initScalars n { strategy_name := name } with
  | none => rfl
  | some s1 =>
    show (match (match n.get "failover" with
                 | some fn => parseFailover fn s1
                 | none => some s1) with
          | none => none
          | some s2 =>
            match n.get "groups" with
            | some gn => parseGroups isSelf s2 gn
            | none => some (s2, [])) = none
    cases h2 : (match n.get "failover" with
                | some fn => parseFailover fn s1
                | none => some s1) with
    | none => rfl
    | some s2 =>
      show (match n.get "groups" with
            | some gn => parseGroups isSelf s2 gn
            | none => some (s2, [])) = none
      rw [hg]
      cases g with
      | scalar a => rfl
      | seq xs => exact absurd rfl ht
      | map kvs => rfl

/-- Claim C6, witness at a concrete configuration whose `groups` node is
a scalar. -/
theorem C6_witness :
    PLNextHopSelectionStrategy.Init (fun _ => false) "s" cfgGroupsScalar = none :=
  C6_groups_not_sequence (fun _ => false) "s" cfgGroupsScalar (.scalar "x") rfl (by decide)

/-- Claim C7, amended: a host entry written without the merge tag and
without a `weight` field decodes with the default weight 1.0; an entry
using the `<<` merge tag must carry an explicit `weight` on the entry
itself, otherwise decoding fails. -/
theorem C7_default_weight (node : YNode) (hr : PLHostRecord)
    (hm : node.get "<<" = none) (hw : node.get "weight" = none)
    (hd : decodeHost node = some hr) : hr.weight = 1 := by
  simp only [decodeHost, hm, hw] at hd
  split at hd
  · exact absurd hd (by simp)
  · split at hd
    · split at hd
      · exact absurd hd (by simp)
      · cases hd
        rfl
    · exact absurd hd (by simp)

/-- Claim C7, witness at the concrete host entry `hostNodeA`. -/
theorem C7_witness : hostRecA.weight = 1 :=
  C7_default_weight hostNodeA hostRecA rfl rfl (by decide)

/-- Claim C8: after a successful `Init` on a configuration whose `groups`
sequence has `n` entries, both the `groups` counter and the number of
loaded host groups equal `min n PL_NH_MAX_GROUP_RINGS`. -/
theorem C8_group_cap (isSelf : String → Bool) (name : String) (n : YNode) (gl : List YNode)
    (strat : PLNextHopSelectionStrategy) (calls : List String)
    (hg : n.get "groups" = some (.seq gl))
    (hInit : PLNextHopSelectionStrategy.Init isSelf name n = some (strat, calls)) :
    strat.groups = min gl.length PL_NH_MAX_GROUP_RINGS ∧
      strat.host_groups.length = min gl.length PL_NH_MAX_GROUP_RINGS := by
  obtain ⟨s1, s2, h1, h2, h3⟩ := Init_parts hInit
  have hs2hg : s2.host_groups = [] := Init_pre_hostGroups h1 h2
  rw [hg] at h3
  obtain ⟨gl2, hgs, hgl2, hd, hstrat⟩ := parseGroups_inv h3
  cases hgl2
  have hG : (if gl.length > PL_NH_MAX_GROUP_RINGS then PL_NH_MAX_GROUP_RINGS else gl.length)
      = min gl.length PL_NH_MAX_GROUP_RINGS := by
    split <;> omega
  have hlen := decodeGroups_len _ _ _ _ hd
  rw [List.length_take, hG] at hlen
  rw [hstrat]
  dsimp only
  rw [hs2hg]
  simp only [List.nil_append]
  rw [hlen, hG]
  constructor <;> omega

/-- Claim C8, witness at a concrete two-group configuration. -/
theorem C8_witness :
    stratTwoGroups.groups = min 2 PL_NH_MAX_GROUP_RINGS ∧
      stratTwoGroups.host_groups.length = min 2 PL_NH_MAX_GROUP_RINGS :=
  C8_group_cap (fun _ => false) "s" cfgTwoGroups [.seq [hostNodeA], .seq [hostNodeB]]
    stratTwoGroups [] rfl (by decide)

/-- Claim C10: an unrecognized `failover.ring_mode` string leaves the
strategy loadable and sets `ring_mode` to the alternate-ring default. -/
theorem C10_ring_mode_default (isSelf : String → Bool) (name : String) (n fn rm : YNode)
    (strat : PLNextHopSelectionStrategy) (calls : List String)
    (hf : n.get "failover" = some fn)
    (hrm : fn.get "ring_mode" = some rm)
    (h1 : rm.Scalar ≠ "alternate_ring") (h2 : rm.Scalar ≠ "exhaust_ring")
    (hInit : PLNextHopSelectionStrategy.Init isSelf name n = some (strat, calls)) :
    strat.ring_mode = PL_NH_RingMode.PL_NH_ALTERNATE_RING := by
  obtain ⟨s1, s2, hi1, hi2, hi3⟩ := Init_parts hInit
  rw [hf] at hi2
  have hr2 := parseFailover_ring hi2 hrm h1 h2
  exact (groupsStep_fields hi3).2.trans hr2

/-- Claim C10, witness: `ring_mode: bogus` loads successfully with the
alternate-ring default. -/
theorem C10_witness :
    stratFailoverOnly.ring_mode = PL_NH_RingMode.PL_NH_ALTERNATE_RING :=
  C10_ring_mode_default (fun _ => false) "s" cfgBogusRing
    (.map [("ring_mode", .scalar "bogus")]) (.scalar "bogus") stratFailoverOnly []
    rfl rfl (by decide) (by decide) (by decide)
